import Mathlib

/-!
Verification development for the "Personals" list plugin
(`src/Personallist.js`).  The definitions below are a shallow embedding of
the plugin's three core algorithms: the NPC comment-block parser
(`parseNpcBlocks`), the registry operations (`upsert`, `removeId`,
`isPersonalAdded`, listener registration and triggering), and the
description paginator (`Window_PersonalDesc.prototype.setText` /
`refresh`).  JavaScript strings are modelled as Lean `String`s, with the
JS string operations (`trim`, `slice`, `split`, `startsWith`, `includes`,
`parseInt`) re-implemented over the underlying character lists so that
every definition is executable and kernel-reducible.  The JS value `NaN`
produced by `parseInt` is modelled as `none : Option Int`.
-/

namespace Personallist

/-! ## JavaScript string primitives -/

/-- Whitespace characters removed by `String.prototype.trim` (the ASCII
subset, which covers every input used in this development). -/
def isJsSpace (c : Char) : Bool :=
  c == ' ' || c == '\t' || c == '\n' || c == '\r' || c == '\x0b' || c == '\x0c'

/-- Model of `s.trim()`: drop leading and trailing whitespace. -/
def jsTrim (s : String) : String :=
  String.mk (((s.data.dropWhile isJsSpace).reverse.dropWhile isJsSpace).reverse)

/-- Model of `s.slice(n)` for a non-negative index `n`. -/
def jsSlice (s : String) (n : Nat) : String :=
  String.mk (s.data.drop n)

/-- Model of `s.startsWith(p)`. -/
def jsStartsWith (s p : String) : Bool :=
  p.data.isPrefixOf s.data

/-- Substring search on character lists, used to model `String.prototype.includes`. -/
def isSubChars (pat : List Char) : List Char → Bool
  | [] => pat.isEmpty
  | c :: cs => pat.isPrefixOf (c :: cs) || isSubChars pat cs

/-- Model of `s.includes(pat)`. -/
def jsIncludes (s pat : String) : Bool :=
  isSubChars pat.data s.data

/-- Helper for `jsSplitChar`: split a character list at every occurrence of
the separator character (the JS `split` with a one-character separator:
`"".split(c) = [""]`, separators at the ends produce empty groups). -/
def splitCharAux (c : Char) : List Char → List (List Char)
  | [] => [[]]
  | ch :: rest =>
    let acc := splitCharAux c rest
    if ch = c then [] :: acc
    else
      match acc with
      | g :: gs => (ch :: g) :: gs
      | [] => [[ch]]

/-- Model of `s.split(c)` for a single-character separator `c`. -/
def jsSplitChar (c : Char) (s : String) : List String :=
  (splitCharAux c s.data).map String.mk

/-- Numeric value of a decimal digit character. -/
def digitVal (c : Char) : Nat := c.toNat - '0'.toNat

/-- Consume the maximal leading run of decimal digits; `none` when there is
no digit (the `NaN` case of `parseInt`). -/
def parseDigits (cs : List Char) : Option Nat :=
  let ds := cs.takeWhile (·.isDigit)
  if ds.isEmpty then none
  else some (ds.foldl (fun a c => a * 10 + digitVal c) 0)

/-- Model of `parseInt(s, 10)`: skip leading whitespace, read an optional
sign and then the maximal run of decimal digits, ignoring any trailing
garbage; `none` models the JS result `NaN`. -/
def parseIntJS (s : String) : Option Int :=
  match s.data.dropWhile isJsSpace with
  | '-' :: rest => (parseDigits rest).map (fun n => -(n : Int))
  | '+' :: rest => (parseDigits rest).map (fun n => (n : Int))
  | cs => (parseDigits cs).map (fun n => (n : Int))

/-! ## Ids as they appear at the public API boundary

The public entry points (`isPersonalAdded`, `onPersonalAdded`,
`onPersonalRemoved`, `_triggerPersonalAdded`, `_triggerPersonalRemoved`,
`removeId`) accept either a string or a number and normalize it with
`String(id)`.  Number-shaped ids are modelled as integers; `String(n)` for
an integer is its decimal representation, which is `toString : Int → String`. -/

inductive JsId where
  | str : String → JsId
  | num : Int → JsId
deriving DecidableEq

/-- Model of `String(id)` on a string-or-number id. -/
def jsStringOfId : JsId → String
  | .str s => s
  | .num n => toString n

/-! ## The NPC record and the parser (`parseNpcBlocks`) -/

/-- The draft / result object built by `parseNpcBlocks`.  Field names
follow the source (`faceName`, `iconIndexes`, `notes`).  `faceIndex` is
`Option Int` because `parseInt` can produce `NaN` (modelled `none`); the
initial JS value `0` is `some 0`. -/
structure NpcRecord where
  typeIsNPC : Bool
  id : String
  name : String
  category : String
  faceName : String
  faceIndex : Option Int
  iconIndexes : List Int
  notes : String
deriving DecidableEq, Repr

/-- The fresh draft created at each `Type: NPC` line. -/
def freshNpc : NpcRecord :=
  { typeIsNPC := true, id := "", name := "", category := "", faceName := ""
    faceIndex := some 0, iconIndexes := [], notes := "" }

/-- One entry of an event page's command list: `cmd.code` and
`cmd.parameters[0]` (the comment text). -/
structure EventCommand where
  code : Nat
  param0 : String
deriving DecidableEq, Repr

/-- The mutable state of the `parseNpcBlocks` loop: the `results` array,
the current draft `npc` (JS `null` is `none`) and the `readingNote` flag. -/
structure ParseState where
  results : List NpcRecord
  npc : Option NpcRecord
  readingNote : Bool
deriving DecidableEq, Repr

/-- Model of `!wantedId || npc.id === wantedId`: `wantedId` is `null`
(`none`) or a string; note that the empty string is falsy in JS, so a
`some ""` filter passes everything. -/
def wantedOk (wantedId : Option String) (id : String) : Bool :=
  match wantedId with
  | none => true
  | some w => w == "" || id == w

/-- Model of the `pushCurrent` closure: the results array after the
current draft is finalized (emitted only if NPC-typed with non-empty
`name` and `id`, and passing the `wantedId` filter). -/
def pushCurrent (wantedId : Option String) (st : ParseState) : List NpcRecord :=
  match st.npc with
  | some npc =>
    if npc.typeIsNPC && npc.name != "" && npc.id != "" then
      if wantedOk wantedId npc.id then st.results ++ [npc] else st.results
    else st.results
  | none => st.results

/-- The body of the `forEach` for a comment line, after the line has been
trimmed (source line 107).  Mirrors the `if`/`else if` chain of the
source: the `Type:`+`NPC` check first, then — only with an open draft —
the five field prefixes, `Details:` (which sets `readingNote`), and the
`readingNote` continuation append.  None of the five field branches
touches `readingNote`. -/
def parseLineStep (wantedId : Option String) (st : ParseState) (line : String) :
    ParseState :=
  if jsStartsWith line "Type:" && jsIncludes line "NPC" then
    { results := pushCurrent wantedId st, npc := some freshNpc, readingNote := false }
  else
    match st.npc with
    | none => st
    | some npc =>
      if jsStartsWith line "ID:" then
        { st with npc := some { npc with id := jsTrim (jsSlice line 3) } }
      else if jsStartsWith line "Name:" then
        { st with npc := some { npc with name := jsTrim (jsSlice line 5) } }
      else if jsStartsWith line "Category:" then
        { st with npc := some { npc with category := jsTrim (jsSlice line 9) } }
      else if jsStartsWith line "Face:" then
        let parts := jsSplitChar ',' (jsSlice line 5)
        let fn := parts.headD ""
        let fi :=
          match parts with
          | _ :: f :: _ => if f == "" then "0" else f
          | _ => "0"
        { st with npc := some { npc with faceName := jsTrim fn, faceIndex := parseIntJS fi } }
      else if jsStartsWith line "Icon:" then
        { st with npc := some { npc with iconIndexes :=
            ((jsSplitChar ',' (jsSlice line 5)).filterMap
              (fun s => parseIntJS (jsTrim s))).take 3 } }
      else if jsStartsWith line "Details:" then
        { st with
          npc := some { npc with notes := jsTrim (jsSlice line 8) },
          readingNote := true }
      else if st.readingNote then
        { st with npc := some { npc with notes := npc.notes ++ "\n" ++ line } }
      else st

/-- One iteration of the `forEach` over the raw command list: a
non-comment line (code neither 108 nor 408) only clears `readingNote`;
a comment line is trimmed and handled by `parseLineStep`. -/
def parseStep (wantedId : Option String) (st : ParseState) (cmd : EventCommand) :
    ParseState :=
  if cmd.code ≠ 108 ∧ cmd.code ≠ 408 then { st with readingNote := false }
  else parseLineStep wantedId st (jsTrim cmd.param0)

/-- Model of `parseNpcBlocks(list, wantedId)`. -/
def parseNpcBlocks (list : List EventCommand) (wantedId : Option String) :
    List NpcRecord :=
  pushCurrent wantedId (list.foldl (parseStep wantedId) ⟨[], none, false⟩)

/-! ## The registry (`$gameSystem._personalList` plus the listener API)

The list of collected records is a JS array (insertion order preserved);
the listener table `_personalListeners` maps a string id to its `added`
and `removed` callback arrays.  Callbacks are modelled as opaque values of
a type `κ`; the `added` and `removed` sides are each modelled as a map
`String → List κ` holding the callbacks in registration order.  Firing a
set of callbacks is modelled as the list of `(callback, argument)`
invocations, in order. -/

/-- Registration via `Game_System.prototype.onPersonalAdded`: normalize
the id with `String(id)` and push the callback onto that id's `added`
array. -/
def onPersonalAdded (L : String → List κ) (id : JsId) (cb : κ) : String → List κ :=
  fun s => if s = jsStringOfId id then L s ++ [cb] else L s

/-- Registration via `Game_System.prototype.onPersonalRemoved` (same shape
as `onPersonalAdded`, on the `removed` side of the listener table). -/
def onPersonalRemoved (L : String → List κ) (id : JsId) (cb : κ) : String → List κ :=
  fun s => if s = jsStringOfId id then L s ++ [cb] else L s

/-- Model of `Game_System.prototype._triggerPersonalAdded`: normalize the
id and invoke each registered `added` callback in order, passing the
normalized id.  The result is the list of invocations performed. -/
def triggerPersonalAdded (L : String → List κ) (id : JsId) : List (κ × String) :=
  (L (jsStringOfId id)).map (fun cb => (cb, jsStringOfId id))

/-- Model of `Game_System.prototype._triggerPersonalRemoved`. -/
def triggerPersonalRemoved (L : String → List κ) (id : JsId) : List (κ × String) :=
  (L (jsStringOfId id)).map (fun cb => (cb, jsStringOfId id))

/-- Model of `Game_System.prototype.isPersonalAdded`:
`list.some(item => item.id === String(id))`. -/
def isPersonalAdded (list : List NpcRecord) (id : JsId) : Bool :=
  list.any (fun item => item.id == jsStringOfId id)

/-- The `Object.assign(existing, npc)` step of `upsert`: overwrite the
first entry whose id equals `npc.id` with the incoming record (the
incoming record carries every field, so the assignment is a whole-record
overwrite in place).  When no entry matches, the list is unchanged. -/
def assignFirst : List NpcRecord → NpcRecord → List NpcRecord
  | [], _ => []
  | r :: rs, npc => if r.id == npc.id then npc :: rs else r :: assignFirst rs npc

/-- Model of the `upsert` closure of the `AddPersonalToList` command:
look for an existing entry with `npc.id`; update it in place when found,
otherwise append the record and fire the `added` callbacks for its id.
The second component is the list of callback invocations performed.  The
`ImageManager.loadFace` call is an external fire-and-forget side effect
and is not modelled. -/
def upsert (addedL : String → List κ) (list : List NpcRecord) (npc : NpcRecord) :
    List NpcRecord × List (κ × String) :=
  match list.find? (fun i => i.id == npc.id) with
  | some _ => (assignFirst list npc, [])
  | none => (list ++ [npc], triggerPersonalAdded addedL (JsId.str npc.id))

/-- Model of the `removeId` closure of the `RemovePersonalFromList`
command: normalize the id, filter it out of the list, and fire the
`removed` callbacks when the length changed.  The third component models
the JS return value of the arrow function: its body has no `return`
statement, so the call evaluates to `undefined`, modelled `none` (a
`some b` would model returning the boolean `b`). -/
def removeId (removedL : String → List κ) (list : List NpcRecord) (idToDel : JsId) :
    List NpcRecord × List (κ × String) × Option Bool :=
  let d := jsStringOfId idToDel
  let newList := list.filter (fun i => i.id != d)
  if newList.length ≠ list.length then
    (newList, triggerPersonalRemoved removedL (JsId.str d), none)
  else (newList, [], none)

/-- A registry operation, for stating the id-uniqueness invariant over
arbitrary operation sequences. -/
inductive RegOp where
  | up : NpcRecord → RegOp
  | rem : JsId → RegOp

/-- Apply one registry operation to the stored list (the callback
invocations do not affect the stored list, so the listener tables are
irrelevant here and instantiated trivially). -/
def applyOp (list : List NpcRecord) : RegOp → List NpcRecord
  | .up npc => (upsert (fun _ => ([] : List Unit)) list npc).1
  | .rem i => (removeId (fun _ => ([] : List Unit)) list i).1

/-- Apply a sequence of registry operations in order. -/
def applyOps (list : List NpcRecord) (ops : List RegOp) : List NpcRecord :=
  ops.foldl applyOp list

/-! ## The paginator (`Window_PersonalDesc`)

`setText` greedily word-wraps the text against a text measurer supplied
by the host (modelled as an arbitrary function `String → Nat`) and then
slices the wrapped lines into pages; `refresh` draws the page-indicator
footer exactly when there is more than one page. -/

/-- One iteration of the word loop of `setText`.  The JS state is the
`lines` array together with `cur`, with the invariant that the last
element of `lines` is always `cur`; the state is modelled as the pair
(lines without their last element, cur). -/
def wrapStep (measure : String → Nat) (maxW : Nat) (st : List String × String)
    (w : String) : List String × String :=
  let test := st.2 ++ w ++ " "
  if maxW < measure test ∧ st.2 ≠ "" then (st.1 ++ [st.2], w ++ " ")
  else (st.1, test)

/-- The word-wrap of `setText`: split on single spaces and fold the words
through `wrapStep`, starting from `lines = [""]`, `cur = ""`. -/
def wrapLines (measure : String → Nat) (maxW : Nat) (text : String) : List String :=
  let words := jsSplitChar ' ' text
  let fin := words.foldl (wrapStep measure maxW) ([], "")
  fin.1 ++ [fin.2]

/-- Model of `Math.max(1, Math.floor(contentsHeight / lh) - 1)`.  With
natural-number truncated subtraction this agrees with the JS value for
all inputs: when the floored quotient is 0 the JS expression is
`max(1, -1) = 1` and the Lean expression is `max 1 0 = 1`. -/
def linesPerPage (contentsHeight lineHeight : Nat) : Nat :=
  max 1 (contentsHeight / lineHeight - 1)

/-- Fuel-indexed page slicing: `for (i = 0; i < totalLines; i += lpp)
pages.push(lines.slice(i, i + lpp))`.  A fuel of `lines.length` suffices
whenever `0 < lpp`, which holds for every value `linesPerPage` produces. -/
def buildPagesAux (lpp : Nat) : Nat → List String → List (List String)
  | _, [] => []
  | 0, _ :: _ => []
  | fuel + 1, x :: xs => ((x :: xs).take lpp) :: buildPagesAux lpp fuel ((x :: xs).drop lpp)

/-- The page list built by `setText` from the wrapped lines. -/
def buildPages (lpp : Nat) (lines : List String) : List (List String) :=
  buildPagesAux lpp lines.length lines

/-- The page state of `Window_PersonalDesc` after `setText`. -/
structure DescState where
  pages : List (List String)
  pageIdx : Nat
deriving DecidableEq, Repr

/-- Model of `Window_PersonalDesc.prototype.setText`. -/
def setText (measure : String → Nat) (maxW contentsHeight lineHeight : Nat)
    (text : String) : DescState :=
  { pages := buildPages (linesPerPage contentsHeight lineHeight)
      (wrapLines measure maxW text),
    pageIdx := 0 }

/-- Model of the footer decision of `Window_PersonalDesc.prototype.refresh`:
the page indicator is drawn exactly when `this._pages.length > 1`. -/
def footerShown (st : DescState) : Bool :=
  decide (1 < st.pages.length)

/-- The soundness predicate of `pushCurrent`: every emitted record is
NPC-typed, has non-empty name and id, and matches a non-empty `wantedId`
filter. -/
def emittedOk (wantedId : Option String) (r : NpcRecord) : Prop :=
  r.typeIsNPC = true ∧ r.name ≠ "" ∧ r.id ≠ "" ∧
    ∀ w, wantedId = some w → w ≠ "" → r.id = w

/-! ## Sanity checks: the concrete behaviors the spec lists as testable -/

example :
    (parseNpcBlocks
      [⟨108, "Type: NPC"⟩, ⟨108, "ID: 1"⟩, ⟨108, "Name: X"⟩] none).map
      (fun r => (r.id, r.name, r.category, r.faceName, r.iconIndexes)) =
      [("1", "X", "", "", [])] := by decide

example :
    (parseNpcBlocks
      [⟨108, "Type: NPC"⟩, ⟨108, "ID: 1"⟩, ⟨108, "Name: X"⟩,
       ⟨108, "Icon: 1,2,3,4,5"⟩] none).map (fun r => r.iconIndexes) =
      [[1, 2, 3]] := by decide

example :
    (parseNpcBlocks
      [⟨108, "Type: NPC"⟩, ⟨108, "ID: 1"⟩, ⟨108, "Name: X"⟩,
       ⟨108, "Face: Actor1, 3"⟩] none).map
      (fun r => (r.faceName, r.faceIndex)) = [("Actor1", some 3)] := by decide

example :
    (parseNpcBlocks
      [⟨108, "Type: NPC"⟩, ⟨108, "ID: 1"⟩, ⟨108, "Name: X"⟩,
       ⟨108, "Details: line1"⟩, ⟨108, "line2"⟩] none).map (fun r => r.notes) =
      ["line1\nline2"] := by decide

example :
    (parseNpcBlocks
      [⟨108, "Type: NPC"⟩, ⟨108, "Name: X"⟩, ⟨108, "Category: C"⟩] none) = [] := by
  decide

example :
    wrapLines (fun s => s.length) 5 "aa bb" = ["aa ", "bb "] := by decide

example :
    setText (fun s => s.length) 5 3 1 "aa bb" =
      { pages := [["aa ", "bb "]], pageIdx := 0 } := by decide

example :
    footerShown (setText (fun s => s.length) 5 3 1 "aa bb cc") = true := by decide

/-! ## Helper lemmas about the registry -/

lemma find?_append_cons (l1 : List NpcRecord) (old : NpcRecord) (l2 : List NpcRecord)
    (npc : NpcRecord) (h1 : ∀ r ∈ l1, r.id ≠ npc.id) (h2 : old.id = npc.id) :
    (l1 ++ old :: l2).find? (fun i => i.id == npc.id) = some old := by
  induction l1 with
  | nil => simp [List.find?, h2]
  | cons r rs ih =>
    have hr : r.id ≠ npc.id := h1 r (by simp)
    simp only [List.cons_append, List.find?]
    rw [beq_eq_false_iff_ne.mpr hr]
    exact ih (fun x hx => h1 x (by simp [hx]))

lemma assignFirst_append_cons (l1 : List NpcRecord) (old : NpcRecord)
    (l2 : List NpcRecord) (npc : NpcRecord)
    (h1 : ∀ r ∈ l1, r.id ≠ npc.id) (h2 : old.id = npc.id) :
    assignFirst (l1 ++ old :: l2) npc = l1 ++ npc :: l2 := by
  induction l1 with
  | nil => simp [assignFirst, h2]
  | cons r rs ih =>
    have hr : r.id ≠ npc.id := h1 r (by simp)
    have ih' := ih (fun x hx => h1 x (by simp [hx]))
    simp [assignFirst, beq_eq_false_iff_ne.mpr hr, ih']

lemma assignFirst_map_id (l : List NpcRecord) (npc : NpcRecord) :
    (assignFirst l npc).map (fun r => r.id) = l.map (fun r => r.id) := by
  induction l with
  | nil => rfl
  | cons r rs ih =>
    by_cases h : r.id = npc.id
    · simp [assignFirst, h]
    · simp [assignFirst, beq_eq_false_iff_ne.mpr h, ih]

lemma nodup_applyOp (list : List NpcRecord) (op : RegOp)
    (h : (list.map (fun r => r.id)).Nodup) :
    ((applyOp list op).map (fun r => r.id)).Nodup := by
  cases op with
  | up npc =>
    cases hf : list.find? (fun i => i.id == npc.id) with
    | some r => simpa [applyOp, upsert, hf, assignFirst_map_id] using h
    | none =>
      have hne : npc.id ∉ list.map (fun r => r.id) := by
        intro hmem
        obtain ⟨r, hr, hid⟩ := List.mem_map.mp hmem
        have hfalse := List.find?_eq_none.mp hf r hr
        simp [hid] at hfalse
      have hperm : List.Perm (list.map (fun r => r.id) ++ [npc.id])
          (npc.id :: list.map (fun r => r.id)) := List.perm_append_singleton _ _
      have hnd : (list.map (fun r => r.id) ++ [npc.id]).Nodup :=
        hperm.nodup_iff.mpr (List.nodup_cons.mpr ⟨hne, h⟩)
      simpa [applyOp, upsert, hf] using hnd
  | rem i =>
    have hsub : List.Sublist (applyOp list (RegOp.rem i)) list := by
      simp only [applyOp, removeId]
      split
      · exact List.filter_sublist _
      · exact List.filter_sublist _
    exact h.sublist (hsub.map _)

/-! ## Helper lemmas about the parser -/

lemma pushCurrent_none (wantedId : Option String) (st : ParseState)
    (h : st.npc = none) : pushCurrent wantedId st = st.results := by
  unfold pushCurrent
  rw [h]

lemma pushCurrent_some (wantedId : Option String) (st : ParseState)
    (npc : NpcRecord) (h : st.npc = some npc) :
    pushCurrent wantedId st =
      if npc.typeIsNPC && npc.name != "" && npc.id != "" then
        if wantedOk wantedId npc.id then st.results ++ [npc] else st.results
      else st.results := by
  unfold pushCurrent
  rw [h]

lemma pushCurrent_sound (wantedId : Option String) (st : ParseState)
    (h : ∀ r ∈ st.results, emittedOk wantedId r) :
    ∀ r ∈ pushCurrent wantedId st, emittedOk wantedId r := by
  intro r hr
  cases hnpc : st.npc with
  | none =>
    rw [pushCurrent_none wantedId st hnpc] at hr
    exact h r hr
  | some npc =>
    rw [pushCurrent_some wantedId st npc hnpc] at hr
    by_cases hguard : (npc.typeIsNPC && npc.name != "" && npc.id != "") = true
    · rw [if_pos hguard] at hr
      by_cases hok : wantedOk wantedId npc.id = true
      · rw [if_pos hok] at hr
        rcases List.mem_append.mp hr with hmem | hmem
        · exact h r hmem
        · have hrnpc : r = npc := by simpa using hmem
          subst hrnpc
          simp only [Bool.and_eq_true, bne_iff_ne, ne_eq] at hguard
          refine ⟨hguard.1.1, hguard.1.2, hguard.2, ?_⟩
          intro w hw hwne
          rw [hw] at hok
          unfold wantedOk at hok
          rcases Bool.or_eq_true_iff.mp hok with hc | hc
          · exact absurd (beq_iff_eq.mp hc) hwne
          · exact beq_iff_eq.mp hc
      · rw [if_neg hok] at hr
        exact h r hr
    · rw [if_neg hguard] at hr
      exact h r hr

/-- Every branch of `parseLineStep` leaves the results array unchanged,
except the `Type: NPC` branch which finalizes the current draft. -/
lemma parseLineStep_results (wantedId : Option String) (st : ParseState)
    (line : String) :
    (parseLineStep wantedId st line).results = st.results ∨
    (parseLineStep wantedId st line).results = pushCurrent wantedId st := by
  unfold parseLineStep
  split
  · exact Or.inr rfl
  · split
    · exact Or.inl rfl
    · left
      repeat' split
      all_goals rfl

lemma parseStep_sound (wantedId : Option String) (st : ParseState)
    (cmd : EventCommand) (h : ∀ r ∈ st.results, emittedOk wantedId r) :
    ∀ r ∈ (parseStep wantedId st cmd).results, emittedOk wantedId r := by
  intro r hr
  unfold parseStep at hr
  split at hr
  · exact h r hr
  · rcases parseLineStep_results wantedId st (jsTrim cmd.param0) with heq | heq
    · rw [heq] at hr
      exact h r hr
    · rw [heq] at hr
      exact pushCurrent_sound wantedId st h r hr

lemma parse_fold_sound (wantedId : Option String) (l : List EventCommand) :
    ∀ st : ParseState, (∀ r ∈ st.results, emittedOk wantedId r) →
      ∀ r ∈ (l.foldl (parseStep wantedId) st).results, emittedOk wantedId r := by
  induction l with
  | nil => intro st h; simpa using h
  | cons cmd rest ih =>
    intro st h
    exact ih (parseStep wantedId st cmd) (parseStep_sound wantedId st cmd h)

/-! ## Claim C2 — upsert semantics and onAdded callback dispatch -/

/-- C2: if no entry with the record's id exists, `upsert` appends the
record and fires every `onAdded` callback registered for that id exactly
once, in registration order, passing the id; if an entry exists, it is
overwritten in place (whole-record overwrite) without changing its
position, and no callback fires.  Registration itself appends to the back
of the callback list, so the registration order is the list order. -/
theorem upsert_spec {κ : Type} (addedL : String → List κ) (list : List NpcRecord)
    (npc : NpcRecord) (cb : κ) :
    ((∀ r ∈ list, r.id ≠ npc.id) →
      upsert addedL list npc =
        (list ++ [npc], (addedL npc.id).map (fun c => (c, npc.id))))
    ∧ (∀ l1 old l2, list = l1 ++ old :: l2 → old.id = npc.id →
        (∀ r ∈ l1, r.id ≠ npc.id) →
        upsert addedL list npc = (l1 ++ npc :: l2, []))
    ∧ onPersonalAdded addedL (JsId.str npc.id) cb npc.id = addedL npc.id ++ [cb] := by
  refine ⟨?_, ?_, ?_⟩
  · intro h
    have hf : list.find? (fun i => i.id == npc.id) = none :=
      List.find?_eq_none.mpr (fun r hr => by simp [beq_eq_false_iff_ne.mpr (h r hr)])
    simp [upsert, hf, triggerPersonalAdded, jsStringOfId]
  · intro l1 old l2 hsplit hold h1
    subst hsplit
    have hf := find?_append_cons l1 old l2 npc h1 hold
    have ha := assignFirst_append_cons l1 old l2 npc h1 hold
    simp [upsert, hf, ha]
  · simp [onPersonalAdded, jsStringOfId]

/-- Witness for C2: concrete instances of both the insert and the
overwrite case, with two callbacks registered for id `"7"`. -/
theorem upsert_spec_witness :
    upsert (fun s => if s = "7" then [0, 1] else ([] : List Nat)) []
        { freshNpc with id := "7", name := "A" } =
      ([{ freshNpc with id := "7", name := "A" }], [(0, "7"), (1, "7")])
    ∧ upsert (fun s => if s = "7" then [0, 1] else ([] : List Nat))
        [{ freshNpc with id := "7", name := "A" }]
        { freshNpc with id := "7", name := "B" } =
      ([{ freshNpc with id := "7", name := "B" }], []) := by
  constructor
  · have h := (upsert_spec (fun s => if s = "7" then [0, 1] else ([] : List Nat)) []
      { freshNpc with id := "7", name := "A" } 0).1 (by intro r hr; simp at hr)
    simpa using h
  · have h := (upsert_spec (fun s => if s = "7" then [0, 1] else ([] : List Nat))
      [{ freshNpc with id := "7", name := "A" }]
      { freshNpc with id := "7", name := "B" } 0).2.1
      [] { freshNpc with id := "7", name := "A" } [] rfl rfl
      (by intro r hr; simp at hr)
    simpa using h

/-! ## Claim C9 — id uniqueness is a registry invariant -/

/-- C9: starting from the empty registry, any sequence of upsert and
remove operations leaves pairwise-distinct ids, and upserting two records
sharing one id leaves exactly one entry holding the second record's
fields. -/
theorem registry_id_nodup :
    (∀ ops : List RegOp, ((applyOps [] ops).map (fun r => r.id)).Nodup)
    ∧ ∀ r1 r2 : NpcRecord, r1.id = r2.id →
        applyOps [] [RegOp.up r1, RegOp.up r2] = [r2] := by
  constructor
  · have general : ∀ (ops : List RegOp) (l : List NpcRecord),
        (l.map (fun r => r.id)).Nodup →
        ((applyOps l ops).map (fun r => r.id)).Nodup := by
      intro ops
      induction ops with
      | nil => intro l h; simpa [applyOps] using h
      | cons op rest ih =>
        intro l h
        exact ih (applyOp l op) (nodup_applyOp l op h)
    exact fun ops => general ops [] (by simp)
  · intro r1 r2 h
    simp [applyOps, applyOp, upsert, List.find?, assignFirst, h]

/-- Witness for C9: the second conjunct applied to two concrete records
with the same id. -/
theorem registry_id_nodup_witness :
    applyOps [] [RegOp.up { freshNpc with id := "7", name := "A" },
      RegOp.up { freshNpc with id := "7", name := "B" }] =
      [{ freshNpc with id := "7", name := "B" }] :=
  registry_id_nodup.2 _ _ rfl

/-! ## Claim C5 — removal semantics and the return value of `removeId` -/

/-- Amended C5: `removeId` deletes the entry when present and fires every
`onRemoved` callback registered for the normalized id exactly once, in
registration order, passing the id; on an absent id it changes nothing
and fires no callback (and, being a total function, raises no exception).
In both cases the JS arrow function evaluates to `undefined` (modelled
`none`), not to a boolean deletion flag. -/
theorem removeId_spec {κ : Type} (removedL : String → List κ)
    (list : List NpcRecord) (i : JsId) :
    (removeId removedL list i).2.2 = none
    ∧ ((∃ r ∈ list, r.id = jsStringOfId i) →
        (removeId removedL list i).1 =
          list.filter (fun r => r.id != jsStringOfId i)
        ∧ (removeId removedL list i).2.1 =
            (removedL (jsStringOfId i)).map (fun cb => (cb, jsStringOfId i)))
    ∧ ((∀ r ∈ list, r.id ≠ jsStringOfId i) →
        (removeId removedL list i).1 = list
        ∧ (removeId removedL list i).2.1 = []) := by
  refine ⟨?_, ?_, ?_⟩
  · simp only [removeId]
    split
    · rfl
    · rfl
  · rintro ⟨r, hr, hid⟩
    have hcond : (list.filter (fun r => r.id != jsStringOfId i)).length ≠
        list.length := by
      intro heq
      have hall := List.filter_length_eq_length.mp heq r hr
      simp [hid] at hall
    simp only [removeId]
    rw [if_pos hcond]
    exact ⟨rfl, rfl⟩
  · intro h
    have hall : ∀ r ∈ list, (fun r : NpcRecord => r.id != jsStringOfId i) r = true :=
      fun r hr => bne_iff_ne.mpr (h r hr)
    have hfilter : list.filter (fun r => r.id != jsStringOfId i) = list :=
      List.filter_eq_self.mpr hall
    have hcond : ¬ ((list.filter (fun r => r.id != jsStringOfId i)).length ≠
        list.length) := by
      rw [hfilter]
      exact fun hne => hne rfl
    simp only [removeId]
    rw [if_neg hcond]
    exact ⟨hfilter, rfl⟩

/-- C5 counterexample: the claim says `remove` returns whether a deletion
occurred, so it would return `true` after deleting a present id and
`false` on an absent id; the source's `removeId` arrow function has no
return statement and evaluates to `undefined` (modelled `none`) in both
cases, even though the deletion itself does occur. -/
theorem removeId_counterexample :
    (removeId (fun _ => ([] : List Nat)) [{ freshNpc with id := "7", name := "A" }]
        (JsId.str "7")).2.2 ≠ some true
    ∧ (removeId (fun _ => ([] : List Nat)) [] (JsId.str "7")).2.2 ≠ some false
    ∧ (removeId (fun _ => ([] : List Nat)) [{ freshNpc with id := "7", name := "A" }]
        (JsId.str "7")).1 = [] := by
  refine ⟨?_, ?_, ?_⟩ <;> decide

/-- Witness for C5: both the present-id and the absent-id case of the
amended theorem at concrete inputs, with one callback registered. -/
theorem removeId_spec_witness :
    removeId (fun s => if s = "7" then [0] else ([] : List Nat))
        [{ freshNpc with id := "7", name := "A" }] (JsId.str "7") =
      ([], [(0, "7")], none)
    ∧ removeId (fun s => if s = "7" then [0] else ([] : List Nat))
        [{ freshNpc with id := "8", name := "B" }] (JsId.str "7") =
      ([{ freshNpc with id := "8", name := "B" }], [], none) := by
  constructor
  · have h := removeId_spec (fun s => if s = "7" then [0] else ([] : List Nat))
      [{ freshNpc with id := "7", name := "A" }] (JsId.str "7")
    have hpresent := h.2.1 ⟨{ freshNpc with id := "7", name := "A" }, by simp, rfl⟩
    have hret := h.1
    have hfst := hpresent.1
    have hsnd := hpresent.2
    have : removeId (fun s => if s = "7" then [0] else ([] : List Nat))
        [{ freshNpc with id := "7", name := "A" }] (JsId.str "7") =
        ((removeId (fun s => if s = "7" then [0] else ([] : List Nat))
          [{ freshNpc with id := "7", name := "A" }] (JsId.str "7")).1,
         (removeId (fun s => if s = "7" then [0] else ([] : List Nat))
          [{ freshNpc with id := "7", name := "A" }] (JsId.str "7")).2.1,
         (removeId (fun s => if s = "7" then [0] else ([] : List Nat))
          [{ freshNpc with id := "7", name := "A" }] (JsId.str "7")).2.2) := rfl
    rw [this, hfst, hsnd, hret]
    simp [jsStringOfId]
  · have h := removeId_spec (fun s => if s = "7" then [0] else ([] : List Nat))
      [{ freshNpc with id := "8", name := "B" }] (JsId.str "7")
    have habsent := h.2.2 (by
      intro r hr
      have : r = { freshNpc with id := "8", name := "B" } := by simpa using hr
      rw [this]
      decide)
    have : removeId (fun s => if s = "7" then [0] else ([] : List Nat))
        [{ freshNpc with id := "8", name := "B" }] (JsId.str "7") =
        ((removeId (fun s => if s = "7" then [0] else ([] : List Nat))
          [{ freshNpc with id := "8", name := "B" }] (JsId.str "7")).1,
         (removeId (fun s => if s = "7" then [0] else ([] : List Nat))
          [{ freshNpc with id := "8", name := "B" }] (JsId.str "7")).2.1,
         (removeId (fun s => if s = "7" then [0] else ([] : List Nat))
          [{ freshNpc with id := "8", name := "B" }] (JsId.str "7")).2.2) := rfl
    rw [this, habsent.1, habsent.2, h.1]

/-! ## Claim C7 — number- and string-shaped ids are normalized alike -/

/-- C7: every public entry point normalizes ids with `String(id)`, so a
number-shaped id and the equivalent string-shaped id are interchangeable:
`isPersonalAdded` gives the same boolean (and that boolean reflects the
current registry state), registration under a number id equals
registration under the string id, and a callback registered under a
number id fires (receiving the string id) when the event is keyed by the
equivalent string id. -/
theorem id_normalization (n : Int) (list : List NpcRecord)
    (L : String → List Nat) (cb : Nat) :
    isPersonalAdded list (JsId.num n) = isPersonalAdded list (JsId.str (toString n))
    ∧ onPersonalAdded L (JsId.num n) cb = onPersonalAdded L (JsId.str (toString n)) cb
    ∧ onPersonalRemoved L (JsId.num n) cb
        = onPersonalRemoved L (JsId.str (toString n)) cb
    ∧ triggerPersonalAdded (onPersonalAdded L (JsId.num n) cb)
        (JsId.str (toString n))
        = (L (toString n)).map (fun c => (c, toString n)) ++ [(cb, toString n)]
    ∧ triggerPersonalRemoved (onPersonalRemoved L (JsId.num n) cb)
        (JsId.str (toString n))
        = (L (toString n)).map (fun c => (c, toString n)) ++ [(cb, toString n)]
    ∧ (isPersonalAdded list (JsId.num n) = true ↔ ∃ r ∈ list, r.id = toString n) := by
  refine ⟨rfl, rfl, rfl, ?_, ?_, ?_⟩
  · simp [triggerPersonalAdded, onPersonalAdded, jsStringOfId]
  · simp [triggerPersonalRemoved, onPersonalRemoved, jsStringOfId]
  · simp [isPersonalAdded, List.any_eq_true, jsStringOfId]

/-! ## Claim C1 — the finalization rule of the parser -/

/-- C1 counterexample: with the empty string as `wantedId` — a string the
call sites can produce, since plugin-command arguments are obtained by
splitting on single spaces — the guard `!wantedId || npc.id === wantedId`
is satisfied by falsiness of `""`, so the result is NOT restricted to
drafts whose id equals `wantedId`: a record with id `"1" ≠ ""` is
emitted. -/
theorem parser_wantedId_counterexample :
    (parseNpcBlocks [⟨108, "Type: NPC"⟩, ⟨108, "ID: 1"⟩, ⟨108, "Name: X"⟩]
        (some "")).map (fun r => r.id) = ["1"]
    ∧ ¬ (∀ r ∈ parseNpcBlocks [⟨108, "Type: NPC"⟩, ⟨108, "ID: 1"⟩, ⟨108, "Name: X"⟩]
        (some ""), r.id = "") := by
  constructor
  · decide
  · decide

/-- Amended C1: every emitted record was marked NPC-type and has
non-empty name and id (so a block missing `ID:` yields zero records, as
the closed final conjunct checks on a concrete ID-less block), and a
NON-empty `wantedId` restricts the results to drafts with that id; an
empty-string `wantedId` is falsy in JS and applies no filter. -/
theorem parser_finalization (list : List EventCommand) (wantedId : Option String)
    (r : NpcRecord) (h : r ∈ parseNpcBlocks list wantedId) :
    r.typeIsNPC = true ∧ r.name ≠ "" ∧ r.id ≠ ""
    ∧ (∀ w, wantedId = some w → w ≠ "" → r.id = w)
    ∧ parseNpcBlocks
        [⟨108, "Type: NPC"⟩, ⟨108, "Name: X"⟩, ⟨108, "Category: C"⟩,
         ⟨108, "Details: d"⟩] none = [] := by
  have hinit : ∀ x ∈ (⟨[], none, false⟩ : ParseState).results, emittedOk wantedId x := by
    intro x hx
    simp at hx
  have hsound := parse_fold_sound wantedId list ⟨[], none, false⟩ hinit
  have hok := pushCurrent_sound wantedId
    (list.foldl (parseStep wantedId) ⟨[], none, false⟩) hsound r h
  exact ⟨hok.1, hok.2.1, hok.2.2.1, hok.2.2.2, by decide⟩

/-- Witness for C1: a concrete record emitted under the filter
`wantedId = "7"`, with the theorem's guarantees evaluated on it. -/
theorem parser_finalization_witness :
    { freshNpc with id := "7", name := "Y" } ∈
      parseNpcBlocks [⟨108, "Type: NPC"⟩, ⟨108, "ID: 7"⟩, ⟨108, "Name: Y"⟩]
        (some "7")
    ∧ ({ freshNpc with id := "7", name := "Y" } : NpcRecord).id = "7" := by
  have hmem : { freshNpc with id := "7", name := "Y" } ∈
      parseNpcBlocks [⟨108, "Type: NPC"⟩, ⟨108, "ID: 7"⟩, ⟨108, "Name: Y"⟩]
        (some "7") := by decide
  exact ⟨hmem,
    (parser_finalization _ (some "7") _ hmem).2.2.2.1 "7" rfl (by decide)⟩

/-! ## Prefix facts used for the continuation-mode claims -/

lemma isPrefixOf_append_self (l t : List Char) : l.isPrefixOf (l ++ t) = true := by
  induction l with
  | nil => simp [List.isPrefixOf]
  | cons c cs ih => simp [List.isPrefixOf, ih]

lemma jsStartsWith_append_self (p rest : String) :
    jsStartsWith (p ++ rest) p = true := by
  unfold jsStartsWith
  rw [String.data_append]
  exact isPrefixOf_append_self p.data rest.data

/-! ## Claim C3 — do field lines end continuation mode? -/

/-- C3 counterexample: in the source none of the five field branches
resets `readingNote` (only a new `Type: NPC` line or a non-comment line
does), so an unrecognized line immediately following a field line while
continuation is active IS appended to the description: after
`Details: d` and then `ID: 2`, the line `junk` is appended, giving notes
`"d\njunk"` where the claim requires `"d"`. -/
theorem continuation_counterexample :
    (parseNpcBlocks
      [⟨108, "Type: NPC"⟩, ⟨108, "ID: 1"⟩, ⟨108, "Name: X"⟩,
       ⟨108, "Details: d"⟩, ⟨108, "ID: 2"⟩, ⟨108, "junk"⟩] none).map
      (fun r => r.notes) = ["d\njunk"]
    ∧ "d\njunk" ≠ "d" := by
  constructor
  · decide
  · decide

/-- Amended C3: while a draft is open, a recognized field line (`ID:`,
`Name:`, `Category:`, `Face:`, or `Icon:`) leaves continuation mode
unchanged — it does not end it. -/
theorem fieldLines_keep_continuation (wantedId : Option String) (st : ParseState)
    (npc : NpcRecord) (rest : String) (h : st.npc = some npc) :
    (parseLineStep wantedId st ("ID:" ++ rest)).readingNote = st.readingNote
    ∧ (parseLineStep wantedId st ("Name:" ++ rest)).readingNote = st.readingNote
    ∧ (parseLineStep wantedId st ("Category:" ++ rest)).readingNote = st.readingNote
    ∧ (parseLineStep wantedId st ("Face:" ++ rest)).readingNote = st.readingNote
    ∧ (parseLineStep wantedId st ("Icon:" ++ rest)).readingNote = st.readingNote := by
  refine ⟨?_, ?_, ?_, ?_, ?_⟩
  · have h1 : jsStartsWith ("ID:" ++ rest) "Type:" = false := by
      unfold jsStartsWith; rw [String.data_append]; rfl
    have h2 : jsStartsWith ("ID:" ++ rest) "ID:" = true :=
      jsStartsWith_append_self _ _
    simp [parseLineStep, h, h1, h2]
  · have h1 : jsStartsWith ("Name:" ++ rest) "Type:" = false := by
      unfold jsStartsWith; rw [String.data_append]; rfl
    have h2 : jsStartsWith ("Name:" ++ rest) "ID:" = false := by
      unfold jsStartsWith; rw [String.data_append]; rfl
    have h3 : jsStartsWith ("Name:" ++ rest) "Name:" = true :=
      jsStartsWith_append_self _ _
    simp [parseLineStep, h, h1, h2, h3]
  · have h1 : jsStartsWith ("Category:" ++ rest) "Type:" = false := by
      unfold jsStartsWith; rw [String.data_append]; rfl
    have h2 : jsStartsWith ("Category:" ++ rest) "ID:" = false := by
      unfold jsStartsWith; rw [String.data_append]; rfl
    have h3 : jsStartsWith ("Category:" ++ rest) "Name:" = false := by
      unfold jsStartsWith; rw [String.data_append]; rfl
    have h4 : jsStartsWith ("Category:" ++ rest) "Category:" = true :=
      jsStartsWith_append_self _ _
    simp [parseLineStep, h, h1, h2, h3, h4]
  · have h1 : jsStartsWith ("Face:" ++ rest) "Type:" = false := by
      unfold jsStartsWith; rw [String.data_append]; rfl
    have h2 : jsStartsWith ("Face:" ++ rest) "ID:" = false := by
      unfold jsStartsWith; rw [String.data_append]; rfl
    have h3 : jsStartsWith ("Face:" ++ rest) "Name:" = false := by
      unfold jsStartsWith; rw [String.data_append]; rfl
    have h4 : jsStartsWith ("Face:" ++ rest) "Category:" = false := by
      unfold jsStartsWith; rw [String.data_append]; rfl
    have h5 : jsStartsWith ("Face:" ++ rest) "Face:" = true :=
      jsStartsWith_append_self _ _
    simp [parseLineStep, h, h1, h2, h3, h4, h5]
  · have h1 : jsStartsWith ("Icon:" ++ rest) "Type:" = false := by
      unfold jsStartsWith; rw [String.data_append]; rfl
    have h2 : jsStartsWith ("Icon:" ++ rest) "ID:" = false := by
      unfold jsStartsWith; rw [String.data_append]; rfl
    have h3 : jsStartsWith ("Icon:" ++ rest) "Name:" = false := by
      unfold jsStartsWith; rw [String.data_append]; rfl
    have h4 : jsStartsWith ("Icon:" ++ rest) "Category:" = false := by
      unfold jsStartsWith; rw [String.data_append]; rfl
    have h5 : jsStartsWith ("Icon:" ++ rest) "Face:" = false := by
      unfold jsStartsWith; rw [String.data_append]; rfl
    have h6 : jsStartsWith ("Icon:" ++ rest) "Icon:" = true :=
      jsStartsWith_append_self _ _
    simp [parseLineStep, h, h1, h2, h3, h4, h5, h6]

/-- Witness for C3: an `ID:` line processed while continuation mode is
active leaves it active. -/
theorem fieldLines_keep_continuation_witness :
    (parseLineStep none ⟨[], some freshNpc, true⟩ ("ID:" ++ " 2")).readingNote
      = true := by
  exact (fieldLines_keep_continuation none ⟨[], some freshNpc, true⟩ freshNpc
    " 2" rfl).1

/-! ## Claim C4 — parsing of `Face:` lines -/

lemma splitCharAux_no_sep (c : Char) (l : List Char) (h : c ∉ l) :
    splitCharAux c l = [l] := by
  induction l with
  | nil => rfl
  | cons ch rest ih =>
    have hne : ch ≠ c := fun he => h (he ▸ List.mem_cons_self ch rest)
    have hrest : c ∉ rest := fun hm => h (List.mem_cons_of_mem ch hm)
    simp [splitCharAux, hne, ih hrest]

lemma jsSplitChar_no_sep (c : Char) (s : String) (h : c ∉ s.data) :
    jsSplitChar c s = [s] := by
  unfold jsSplitChar
  rw [splitCharAux_no_sep c s.data h]
  rfl

lemma jsSlice_append (p rest : String) :
    jsSlice (p ++ rest) p.data.length = rest := by
  unfold jsSlice
  rw [String.data_append, List.drop_left]

/-- C4 counterexample: `Face: Actor1,abc` has a present but unparseable
second part; `parseInt("abc", 10)` is `NaN` (modelled `none`), not 0, and
that `NaN` is stored as the record's `faceIndex`. -/
theorem face_nan_counterexample :
    (parseNpcBlocks [⟨108, "Type: NPC"⟩, ⟨108, "ID: 1"⟩, ⟨108, "Name: X"⟩,
        ⟨108, "Face: Actor1,abc"⟩] none).map (fun r => r.faceIndex) = [none]
    ∧ (none : Option Int) ≠ some 0 := by
  constructor
  · decide
  · decide

/-- Amended C4: the remainder of a `Face:` line is split on `,`; the
first part, trimmed, becomes the face sheet name.  The second part
defaults to `"0"` only when it is missing or empty, so a comma-less
remainder yields face index 0 (first conjunct, for an arbitrary
comma-free remainder) and `Face: Actor1` yields index 0; a present
unparseable part yields `NaN` (`none`), as in `Face: Actor1,abc`; a
parseable part is parsed, as in `Face: Actor1,3`. -/
theorem face_parsing (wantedId : Option String) (st : ParseState)
    (npc : NpcRecord) (a : String) (h : st.npc = some npc)
    (hnoc : ',' ∉ a.data) :
    parseLineStep wantedId st ("Face:" ++ a)
      = { st with npc := some ({ npc with faceName := jsTrim a, faceIndex := some 0 }) }
    ∧ (parseNpcBlocks [⟨108, "Type: NPC"⟩, ⟨108, "ID: 1"⟩, ⟨108, "Name: X"⟩,
        ⟨108, "Face: Actor1,3"⟩] none).map (fun r => (r.faceName, r.faceIndex))
        = [("Actor1", some 3)]
    ∧ (parseNpcBlocks [⟨108, "Type: NPC"⟩, ⟨108, "ID: 1"⟩, ⟨108, "Name: X"⟩,
        ⟨108, "Face: Actor1"⟩] none).map (fun r => (r.faceName, r.faceIndex))
        = [("Actor1", some 0)]
    ∧ (parseNpcBlocks [⟨108, "Type: NPC"⟩, ⟨108, "ID: 1"⟩, ⟨108, "Name: X"⟩,
        ⟨108, "Face: Actor1,abc"⟩] none).map (fun r => (r.faceName, r.faceIndex))
        = [("Actor1", none)] := by
  refine ⟨?_, by decide, by decide, by decide⟩
  have h1 : jsStartsWith ("Face:" ++ a) "Type:" = false := by
    unfold jsStartsWith; rw [String.data_append]; rfl
  have h2 : jsStartsWith ("Face:" ++ a) "ID:" = false := by
    unfold jsStartsWith; rw [String.data_append]; rfl
  have h3 : jsStartsWith ("Face:" ++ a) "Name:" = false := by
    unfold jsStartsWith; rw [String.data_append]; rfl
  have h4 : jsStartsWith ("Face:" ++ a) "Category:" = false := by
    unfold jsStartsWith; rw [String.data_append]; rfl
  have h5 : jsStartsWith ("Face:" ++ a) "Face:" = true :=
    jsStartsWith_append_self _ _
  have hslice : jsSlice ("Face:" ++ a) 5 = a := jsSlice_append "Face:" a
  have hsplit : jsSplitChar ',' a = [a] := jsSplitChar_no_sep ',' a hnoc
  have hzero : parseIntJS "0" = some 0 := rfl
  simp [parseLineStep, h, h1, h2, h3, h4, h5, hslice, hsplit, hzero, List.headD]

/-- Witness for C4: the comma-free conjunct of the amended theorem at
the concrete remainder `" Actor1"`. -/
theorem face_parsing_witness :
    parseLineStep none ⟨[], some freshNpc, false⟩ ("Face:" ++ " Actor1")
      = { results := [],
          npc := some ({ freshNpc with faceName := "Actor1", faceIndex := some 0 }),
          readingNote := false } := by
  have h := (face_parsing none ⟨[], some freshNpc, false⟩ freshNpc " Actor1"
    rfl (by decide)).1
  rw [h]
  decide

/-! ## Claim C8 — what exactly is appended in continuation mode -/

/-- C8 counterexample: the source trims every comment line on read
(line 107, `cmd.parameters[0].trim()`), so the continuation line
`"  spaced  "` is appended as `"spaced"`, not untrimmed: the notes are
`"d\nspaced"` where the claim requires `"d\n  spaced  "`. -/
theorem continuation_trim_counterexample :
    (parseNpcBlocks [⟨108, "Type: NPC"⟩, ⟨108, "ID: 1"⟩, ⟨108, "Name: X"⟩,
        ⟨108, "Details: d"⟩, ⟨108, "  spaced  "⟩] none).map (fun r => r.notes)
      = ["d\nspaced"]
    ∧ "d\nspaced" ≠ "d\n  spaced  " := by
  constructor
  · decide
  · decide

/-- Amended C8: while in continuation mode, every unrecognized comment
line — a line whose command code is 108 or 408, the latter being the
usual multi-line comment continuation code — is appended to the
description as a newline followed by the TRIMMED line (every comment
line is trimmed on read; no further trimming is applied beyond that
initial trim). -/
theorem continuation_append (wantedId : Option String) (st : ParseState)
    (npc : NpcRecord) (cmd : EventCommand) (h : st.npc = some npc)
    (hrn : st.readingNote = true) (hcode : cmd.code = 108 ∨ cmd.code = 408)
    (hT : (jsStartsWith (jsTrim cmd.param0) "Type:"
            && jsIncludes (jsTrim cmd.param0) "NPC") = false)
    (hID : jsStartsWith (jsTrim cmd.param0) "ID:" = false)
    (hName : jsStartsWith (jsTrim cmd.param0) "Name:" = false)
    (hCat : jsStartsWith (jsTrim cmd.param0) "Category:" = false)
    (hFace : jsStartsWith (jsTrim cmd.param0) "Face:" = false)
    (hIcon : jsStartsWith (jsTrim cmd.param0) "Icon:" = false)
    (hDet : jsStartsWith (jsTrim cmd.param0) "Details:" = false) :
    parseStep wantedId st cmd
      = { st with npc := some ({ npc with notes := npc.notes ++ "\n" ++ jsTrim cmd.param0 }) } := by
  unfold parseStep
  rw [if_neg (by rcases hcode with hc | hc <;> simp [hc])]
  simp [parseLineStep, h, hrn, hT, hID, hName, hCat, hFace, hIcon, hDet]

/-- Witness for C8: a code-408 continuation line `"  spaced  "` — and
likewise a code-108 one — is appended trimmed to the notes `"d"`,
giving `"d\nspaced"`. -/
theorem continuation_append_witness :
    parseStep none ⟨[], some { freshNpc with notes := "d" }, true⟩
        ⟨408, "  spaced  "⟩
      = { results := [], npc := some { freshNpc with notes := "d\nspaced" },
          readingNote := true }
    ∧ parseStep none ⟨[], some { freshNpc with notes := "d" }, true⟩
        ⟨108, "  spaced  "⟩
      = { results := [], npc := some { freshNpc with notes := "d\nspaced" },
          readingNote := true } := by
  constructor
  · have h := continuation_append none ⟨[], some { freshNpc with notes := "d" }, true⟩
      { freshNpc with notes := "d" } ⟨408, "  spaced  "⟩ rfl rfl (Or.inr rfl)
      (by decide) (by decide) (by decide) (by decide) (by decide) (by decide)
      (by decide)
    rw [h]
    decide
  · have h := continuation_append none ⟨[], some { freshNpc with notes := "d" }, true⟩
      { freshNpc with notes := "d" } ⟨108, "  spaced  "⟩ rfl rfl (Or.inl rfl)
      (by decide) (by decide) (by decide) (by decide) (by decide) (by decide)
      (by decide)
    rw [h]
    decide

/-! ## Helper lemmas about the paginator -/

lemma buildPagesAux_nil (lpp fuel : Nat) : buildPagesAux lpp fuel [] = [] := by
  cases fuel with
  | zero => rfl
  | succ fuel => rfl

lemma buildPagesAux_flatten (lpp : Nat) (hlpp : 0 < lpp) :
    ∀ (fuel : Nat) (l : List String), l.length ≤ fuel →
      (buildPagesAux lpp fuel l).flatten = l := by
  intro fuel
  induction fuel with
  | zero =>
    intro l hl
    have hnil : l = [] := List.eq_nil_of_length_eq_zero (Nat.le_zero.mp hl)
    subst hnil
    rfl
  | succ fuel ih =>
    intro l hl
    cases l with
    | nil => rfl
    | cons x xs =>
      have hdrop : ((x :: xs).drop lpp).length ≤ fuel := by
        rw [List.length_drop]
        simp only [List.length_cons] at hl ⊢
        omega
      simp only [buildPagesAux, List.flatten_cons]
      rw [ih _ hdrop]
      exact List.take_append_drop lpp (x :: xs)

lemma buildPagesAux_page_sizes (lpp : Nat) (hlpp : 0 < lpp) :
    ∀ (fuel : Nat) (l : List String), l.length ≤ fuel →
      ∀ p ∈ buildPagesAux lpp fuel l, p ≠ [] ∧ p.length ≤ lpp := by
  intro fuel
  induction fuel with
  | zero =>
    intro l hl p hp
    have hnil : l = [] := List.eq_nil_of_length_eq_zero (Nat.le_zero.mp hl)
    subst hnil
    simp [buildPagesAux] at hp
  | succ fuel ih =>
    intro l hl p hp
    cases l with
    | nil => simp [buildPagesAux] at hp
    | cons x xs =>
      simp only [buildPagesAux, List.mem_cons] at hp
      rcases hp with hp | hp
      · subst hp
        constructor
        · have : 0 < ((x :: xs).take lpp).length := by
            rw [List.length_take]
            simp only [List.length_cons]
            omega
          exact List.ne_nil_of_length_pos this
        · rw [List.length_take]
          exact min_le_left _ _
      · have hdrop : ((x :: xs).drop lpp).length ≤ fuel := by
          rw [List.length_drop]
          simp only [List.length_cons] at hl ⊢
          omega
        exact ih _ hdrop p hp

lemma buildPagesAux_dropLast_sizes (lpp : Nat) (hlpp : 0 < lpp) :
    ∀ (fuel : Nat) (l : List String), l.length ≤ fuel →
      ∀ p ∈ (buildPagesAux lpp fuel l).dropLast, p.length = lpp := by
  intro fuel
  induction fuel with
  | zero =>
    intro l hl p hp
    have hnil : l = [] := List.eq_nil_of_length_eq_zero (Nat.le_zero.mp hl)
    subst hnil
    simp [buildPagesAux] at hp
  | succ fuel ih =>
    intro l hl p hp
    cases l with
    | nil => simp [buildPagesAux] at hp
    | cons x xs =>
      simp only [buildPagesAux] at hp
      cases hrest : buildPagesAux lpp fuel ((x :: xs).drop lpp) with
      | nil => rw [hrest] at hp; simp at hp
      | cons r rs =>
        rw [hrest] at hp
        have hne : (x :: xs).drop lpp ≠ [] := by
          intro hd
          rw [hd, buildPagesAux_nil] at hrest
          exact List.noConfusion hrest
        have hlen : lpp < (x :: xs).length := by
          by_contra hle
          exact hne (List.drop_eq_nil_of_le (Nat.le_of_not_lt hle))
        have hdl : ((x :: xs).take lpp :: r :: rs).dropLast
            = (x :: xs).take lpp :: (r :: rs).dropLast := rfl
        rw [hdl] at hp
        rcases List.mem_cons.mp hp with hp | hp
        · subst hp
          rw [List.length_take]
          omega
        · have hdrop : ((x :: xs).drop lpp).length ≤ fuel := by
            rw [List.length_drop]
            simp only [List.length_cons] at hl ⊢
            omega
          have := ih _ hdrop p
          rw [hrest] at this
          exact this hp

lemma chunk_count_step (lpp n : Nat) (hlpp : 0 < lpp) (hpos : 0 < n) :
    (n - lpp + lpp - 1) / lpp + 1 = (n + lpp - 1) / lpp := by
  by_cases hcase : n ≤ lpp
  · have h1 : n - lpp = 0 := by omega
    have h2 : (0 + lpp - 1) / lpp = 0 := Nat.div_eq_of_lt (by omega)
    have h3 : (n + lpp - 1) / lpp = 1 := Nat.div_eq_of_lt_le (by omega) (by omega)
    rw [h1, h2, h3]
  · have h1 : n - lpp + lpp - 1 = n - 1 := by omega
    have h2 : n + lpp - 1 = n - 1 + lpp := by omega
    rw [h1, h2, Nat.add_div_right _ hlpp]

lemma buildPagesAux_length (lpp : Nat) (hlpp : 0 < lpp) :
    ∀ (fuel : Nat) (l : List String), l.length ≤ fuel →
      (buildPagesAux lpp fuel l).length = (l.length + lpp - 1) / lpp := by
  intro fuel
  induction fuel with
  | zero =>
    intro l hl
    have hnil : l = [] := List.eq_nil_of_length_eq_zero (Nat.le_zero.mp hl)
    subst hnil
    simp [buildPagesAux, Nat.div_eq_of_lt (by omega : lpp - 1 < lpp)]
  | succ fuel ih =>
    intro l hl
    cases l with
    | nil => simp [buildPagesAux, Nat.div_eq_of_lt (by omega : lpp - 1 < lpp)]
    | cons x xs =>
      have hdrop : ((x :: xs).drop lpp).length ≤ fuel := by
        rw [List.length_drop]
        simp only [List.length_cons] at hl ⊢
        omega
      simp only [buildPagesAux]
      rw [List.length_cons, ih _ hdrop, List.length_drop]
      exact chunk_count_step lpp (x :: xs).length hlpp (by simp)

lemma linesPerPage_pos (ch lh : Nat) : 0 < linesPerPage ch lh :=
  Nat.lt_of_lt_of_le Nat.zero_lt_one (le_max_left 1 _)

/-! ## Claim C6 — pagination geometry and the footer rule -/

/-- C6: the paginator computes `linesPerPage = max(1, floor(h / lh) - 1)`
(stated over the integers, matching the JS arithmetic), slices the
wrapped line list into consecutive in-order chunks of that size — their
concatenation restores the list, every non-final page is full, every page
is non-empty and at most full — with the remainder in the final page;
a line list of exactly `linesPerPage` lines gives one page and no footer
indicator, one more line gives two pages, and the footer indicator
appears exactly when the page count exceeds 1. -/
theorem pagination_spec (measure : String → Nat) (maxW ch lh : Nat)
    (text : String) (lines : List String) :
    (setText measure maxW ch lh text).pages
      = buildPages (linesPerPage ch lh) (wrapLines measure maxW text)
    ∧ ((linesPerPage ch lh : Int) = max 1 ((ch : Int) / (lh : Int) - 1))
    ∧ (buildPages (linesPerPage ch lh) lines).flatten = lines
    ∧ (∀ p ∈ (buildPages (linesPerPage ch lh) lines).dropLast,
        p.length = linesPerPage ch lh)
    ∧ (∀ p ∈ buildPages (linesPerPage ch lh) lines,
        p ≠ [] ∧ p.length ≤ linesPerPage ch lh)
    ∧ (lines.length = linesPerPage ch lh →
        buildPages (linesPerPage ch lh) lines = [lines]
        ∧ footerShown ⟨buildPages (linesPerPage ch lh) lines, 0⟩ = false)
    ∧ (lines.length = linesPerPage ch lh + 1 →
        (buildPages (linesPerPage ch lh) lines).length = 2
        ∧ footerShown ⟨buildPages (linesPerPage ch lh) lines, 0⟩ = true)
    ∧ (footerShown ⟨buildPages (linesPerPage ch lh) lines, 0⟩ = true
        ↔ 1 < (buildPages (linesPerPage ch lh) lines).length) := by
  have hlpp := linesPerPage_pos ch lh
  refine ⟨rfl, ?_, ?_, ?_, ?_, ?_, ?_, ?_⟩
  · have hq : ((ch / lh : Nat) : Int) = (ch : Int) / (lh : Int) :=
      Int.natCast_div ch lh
    rw [linesPerPage, ← hq]
    omega
  · exact buildPagesAux_flatten _ hlpp _ _ le_rfl
  · exact buildPagesAux_dropLast_sizes _ hlpp _ _ le_rfl
  · exact buildPagesAux_page_sizes _ hlpp _ _ le_rfl
  · intro hexact
    have hlen : (buildPages (linesPerPage ch lh) lines).length = 1 := by
      rw [buildPages, buildPagesAux_length _ hlpp _ _ le_rfl, hexact]
      exact Nat.div_eq_of_lt_le (by omega) (by omega)
    obtain ⟨p, hp⟩ := List.length_eq_one.mp hlen
    have hjoin := buildPagesAux_flatten (linesPerPage ch lh) hlpp _ lines le_rfl
    rw [show buildPagesAux (linesPerPage ch lh) lines.length lines
      = buildPages (linesPerPage ch lh) lines from rfl, hp] at hjoin
    simp only [List.flatten_cons, List.flatten_nil, List.append_nil] at hjoin
    constructor
    · rw [hp, hjoin]
    · simp [footerShown, hp]
  · intro hsucc
    have hlen : (buildPages (linesPerPage ch lh) lines).length = 2 := by
      rw [buildPages, buildPagesAux_length _ hlpp _ _ le_rfl, hsucc]
      have h2 : linesPerPage ch lh + 1 + linesPerPage ch lh - 1
          = linesPerPage ch lh * 2 := by omega
      rw [h2, Nat.mul_div_cancel_left _ hlpp]
    exact ⟨hlen, by simp [footerShown, hlen]⟩
  · simp [footerShown]

/-- Witness for C6: with a viewport of height 3 and line height 1 the
page size is 2; two lines give one page and no footer, three lines give
two pages and a footer. -/
theorem pagination_spec_witness :
    buildPages (linesPerPage 3 1) ["a", "b"] = [["a", "b"]]
    ∧ footerShown ⟨buildPages (linesPerPage 3 1) ["a", "b"], 0⟩ = false
    ∧ (buildPages (linesPerPage 3 1) ["a", "b", "c"]).length = 2
    ∧ footerShown ⟨buildPages (linesPerPage 3 1) ["a", "b", "c"], 0⟩ = true := by
  have h2 := (pagination_spec (fun s => s.length) 0 3 1 "" ["a", "b"]).2.2.2.2.2.1
    (by decide)
  have h3 := (pagination_spec (fun s => s.length) 0 3 1 ""
    ["a", "b", "c"]).2.2.2.2.2.2.1 (by decide)
  exact ⟨h2.1, h2.2, h3.1, h3.2⟩

/-! ## Helper lemmas about the word-wrap loop -/

lemma empty_append_str (w : String) : "" ++ w = w := by
  cases w with
  | mk d => rfl

lemma append_space_ne_empty (s : String) : s ++ " " ≠ "" := by
  intro h
  have hd := congrArg String.data h
  rw [String.data_append] at hd
  simp at hd

lemma wrapStep_empty_cur (measure : String → Nat) (maxW : Nat)
    (front : List String) (w : String) :
    wrapStep measure maxW (front, "") w = (front, w ++ " ") := by
  simp only [wrapStep]
  rw [if_neg (fun h => h.2 rfl)]
  rw [empty_append_str w]

lemma splitCharAux_ne_nil (c : Char) (l : List Char) : splitCharAux c l ≠ [] := by
  induction l with
  | nil => simp [splitCharAux]
  | cons ch rest ih =>
    simp only [splitCharAux]
    split
    · simp
    · split
      · simp
      · simp

lemma jsSplitChar_ne_nil (c : Char) (s : String) : jsSplitChar c s ≠ [] := by
  unfold jsSplitChar
  intro h
  exact splitCharAux_ne_nil c s.data (List.map_eq_nil_iff.mp h)

lemma wrapFold_invariant (measure : String → Nat) (maxW : Nat) :
    ∀ (ws : List String) (st : List String × String),
      (∀ l ∈ st.1, l ≠ "") → (st.2 ≠ "" ∨ ws ≠ []) →
      (∀ l ∈ (ws.foldl (wrapStep measure maxW) st).1, l ≠ "")
      ∧ (ws.foldl (wrapStep measure maxW) st).2 ≠ "" := by
  intro ws
  induction ws with
  | nil =>
    intro st h1 h2
    exact ⟨h1, h2.resolve_right (fun h => h rfl)⟩
  | cons w rest ih =>
    intro st h1 h2
    simp only [List.foldl_cons]
    apply ih
    · intro l hl
      simp only [wrapStep] at hl
      split at hl
      · rename_i hcond
        rcases List.mem_append.mp hl with hm | hm
        · exact h1 l hm
        · have : l = st.2 := by simpa using hm
          rw [this]
          exact hcond.2
      · exact h1 l hl
    · left
      simp only [wrapStep]
      split
      · exact append_space_ne_empty w
      · exact append_space_ne_empty (st.2 ++ w)

lemma wrapLines_ne_empty (measure : String → Nat) (maxW : Nat) (text : String) :
    ∀ l ∈ wrapLines measure maxW text, l ≠ "" := by
  intro l hl
  have hws : jsSplitChar ' ' text ≠ [] := jsSplitChar_ne_nil ' ' text
  have hinv := wrapFold_invariant measure maxW (jsSplitChar ' ' text) ([], "")
    (by intro x hx; simp at hx) (Or.inr hws)
  simp only [wrapLines] at hl
  rcases List.mem_append.mp hl with hm | hm
  · exact hinv.1 l hm
  · have : l = ((jsSplitChar ' ' text).foldl (wrapStep measure maxW) ([], "")).2 := by
      simpa using hm
    rw [this]
    exact hinv.2

/-! ## Claim C10 — word placement on an empty line, no empty wrapped lines -/

/-- C10: in the word-wrap loop, a word is always placed on the current
line when that line is empty — the guard `textWidth(test) > maxW && cur`
is false when `cur` is the empty string — even if the word's measured
width alone exceeds the available width (third conjunct: under that
hypothesis no new line is pushed and the word occupies the current line
by itself); consequently no empty line is ever emitted by the wrap. -/
theorem wordWrap_spec :
    (∀ (measure : String → Nat) (maxW : Nat) (front : List String) (w : String),
      wrapStep measure maxW (front, "") w = (front, w ++ " "))
    ∧ (∀ (measure : String → Nat) (maxW : Nat) (text : String),
        ∀ l ∈ wrapLines measure maxW text, l ≠ "")
    ∧ (∀ (measure : String → Nat) (maxW : Nat) (front : List String) (w : String),
        maxW < measure (w ++ " ") →
        wrapStep measure maxW (front, "") w = (front, w ++ " ")
        ∧ (wrapStep measure maxW (front, "") w).1.length = front.length) := by
  refine ⟨wrapStep_empty_cur, wrapLines_ne_empty, ?_⟩
  intro measure maxW front w _
  refine ⟨wrapStep_empty_cur measure maxW front w, ?_⟩
  rw [wrapStep_empty_cur measure maxW front w]

/-- Witness for C10: an over-wide word (width 12 against a viewport of
width 3) is still placed on the empty current line, alone, without
pushing a new line. -/
theorem wordWrap_spec_witness :
    3 < (fun s : String => s.length) ("toolongword" ++ " ")
    ∧ wrapStep (fun s : String => s.length) 3 (["a "], "") "toolongword"
        = (["a "], "toolongword ")
    ∧ wrapLines (fun s : String => s.length) 3 "" = [" "] := by
  refine ⟨by decide, ?_, ?_⟩
  · have h := (wordWrap_spec.2.2 (fun s : String => s.length) 3 ["a "]
      "toolongword" (by decide)).1
    rw [h]
    decide
  · decide

end Personallist
